import Mathlib

set_option maxHeartbeats 1000000

/-!
Verification of the print-hole rendering and encoding pipeline.

The development shallowly embeds the algorithmic core of the repository:
the ESC/POS raster encoder (`src/printer.py`, `image_to_raster`), the word
wrapper and text normalizer and the per-line length accounting of the
markdown-to-printer converter (`src/markdown_printer.py`), and the geometry
of the image processor (`src/image_processor.py`).  Machine integers are
modelled as `Nat`/`Int`, Python strings as `List Char`, Python exceptions as
`Except String`.
-/

/-! ## Raster encoder (src/printer.py, `image_to_raster`) -/

/-- A 1-bit bitmap in the PIL mode-`'1'` convention used by
`image_to_raster`: `pixel x y = 0` is black, `255` is white.  The encoder
only ever reads pixels at `x < width`, `y < height`. -/
structure Bitmap1 where
  width : Nat
  height : Nat
  pixel : Nat → Nat → Nat

/-- Width in bytes, 8 pixels per byte: `width_bytes = (width + 7) // 8`. -/
def Bitmap1.width_bytes (bm : Bitmap1) : Nat := (bm.width + 7) / 8

/-- One packed data byte: the inner `for bit in range(8)` loop of
`image_to_raster`, which sets `0x80 >> bit` for each black pixel
(`pixels[x, y] == 0`) with `x = x_byte * 8 + bit < width`. -/
def rasterByte (bm : Bitmap1) (y xb : Nat) : Nat :=
  (List.range 8).foldl
    (fun byte bit =>
      if xb * 8 + bit < bm.width ∧ bm.pixel (xb * 8 + bit) y = 0 then
        byte ||| (128 >>> bit)
      else byte) 0

/-- Partial accumulations of the `rasterByte` loop, indexed by the number of
loop iterations already performed. -/
def rasterByteGo (bm : Bitmap1) (y xb : Nat) : Nat → Nat
  | 0 => 0
  | n + 1 =>
      if xb * 8 + n < bm.width ∧ bm.pixel (xb * 8 + n) y = 0 then
        rasterByteGo bm y xb n ||| (128 >>> n)
      else rasterByteGo bm y xb n

/-- The packed `raster_data` bytes: row-major, `width_bytes` bytes per row,
no padding between rows (the nested `for y ... for x_byte ...` loops). -/
def raster_data (bm : Bitmap1) : List Nat :=
  (List.range bm.height).flatMap (fun y =>
    (List.range bm.width_bytes).map (rasterByte bm y))

/-- The full `GS v 0` frame built by `image_to_raster`:
`bytes([0x1D, 0x76, 0x30, m, xL, xH, yL, yH]) + raster_data` with `m = 0`,
`xL = width_bytes & 0xFF`, `xH = (width_bytes >> 8) & 0xFF` (written here as
`% 256` and `/ 256 % 256`), and likewise `yL`, `yH` for the height. -/
def image_to_raster (bm : Bitmap1) : List Nat :=
  [0x1D, 0x76, 0x30, 0,
   bm.width_bytes % 256, bm.width_bytes / 256 % 256,
   bm.height % 256, bm.height / 256 % 256] ++ raster_data bm

/-- Modelled from the spec: the repository has no raster decoder, so the
header reader is taken from the spec's `RasterFrame` layout (§3): an 8-byte
header whose mode byte is followed by `width_bytes` and `height`, each as a
little-endian 16-bit value (at offsets 4–5 and 6–7 of the frame). -/
def decode_header (frame : List Nat) : Nat × Nat :=
  (frame.getD 4 0 + 256 * frame.getD 5 0,
   frame.getD 6 0 + 256 * frame.getD 7 0)

/-- Modelled from the spec: bitmap reconstruction from a frame per the
spec's `RasterFrame` layout (§3): packed rows of `width_bytes` bytes follow
the 8-byte header, MSB-first, bit = 1 meaning mark/print, i.e. pixel value 0
in the 1-bit convention; the reconstructed width is `8 * width_bytes`. -/
def decode_bitmap (frame : List Nat) : Bitmap1 where
  width := 8 * (decode_header frame).1
  height := (decode_header frame).2
  pixel := fun x y =>
    if (frame.getD (8 + y * (decode_header frame).1 + x / 8) 0).testBit (7 - x % 8)
    then 0 else 255

/-- The 16×8 all-black bitmap of spec Scenario C. -/
def blackBitmap : Bitmap1 := ⟨16, 8, fun _ _ => 0⟩

/-- A degenerate bitmap whose height does not fit in 16 bits. -/
def tallBitmap : Bitmap1 := ⟨0, 65536, fun _ _ => 255⟩

/-- An all-black bitmap whose width is not a multiple of 8. -/
def black12Bitmap : Bitmap1 := ⟨12, 1, fun _ _ => 0⟩

lemma bool_eq_of_true_iff {a b : Bool} (h : a = true ↔ b = true) : a = b := by
  cases a <;> cases b <;> simp_all

lemma rasterByte_eq_go (bm : Bitmap1) (y xb : Nat) :
    rasterByte bm y xb = rasterByteGo bm y xb 8 := by
  have key : ∀ n : Nat,
      (List.range n).foldl
        (fun byte bit =>
          if xb * 8 + bit < bm.width ∧ bm.pixel (xb * 8 + bit) y = 0 then
            byte ||| (128 >>> bit)
          else byte) 0 = rasterByteGo bm y xb n := by
    intro n
    induction n with
    | zero => rfl
    | succ n ih =>
        rw [List.range_succ, List.foldl_append, ih]
        simp only [List.foldl_cons, List.foldl_nil, rasterByteGo]
  exact key 8

lemma shiftRight_128 {n : Nat} (hn : n ≤ 7) : 128 >>> n = 2 ^ (7 - n) := by
  rw [Nat.shiftRight_eq_div_pow]
  have : (128 : Nat) = 2 ^ 7 := by norm_num
  rw [this, Nat.pow_div hn (by norm_num)]

lemma rasterByteGo_testBit (bm : Bitmap1) (y xb : Nat) :
    ∀ n, n ≤ 8 → ∀ i,
      ((rasterByteGo bm y xb n).testBit i = true ↔
        ∃ k, k < n ∧ i = 7 - k ∧ xb * 8 + k < bm.width ∧
          bm.pixel (xb * 8 + k) y = 0) := by
  intro n
  induction n with
  | zero =>
      intro _ i
      simp [rasterByteGo, Nat.zero_testBit]
  | succ n ih =>
      intro hn i
      have hn' : n ≤ 8 := Nat.le_of_succ_le hn
      have hn7 : n ≤ 7 := Nat.lt_succ_iff.mp hn
      rw [rasterByteGo]
      by_cases hc : xb * 8 + n < bm.width ∧ bm.pixel (xb * 8 + n) y = 0
      · rw [if_pos hc, Nat.testBit_lor]
        have hpow : (128 >>> n).testBit i = true ↔ i = 7 - n := by
          rw [shiftRight_128 hn7]
          constructor
          · intro h
            by_contra hne
            rw [Nat.testBit_two_pow_of_ne (fun he => hne he.symm)] at h
            exact Bool.false_ne_true h
          · intro h
            subst h
            exact Nat.testBit_two_pow_self
        constructor
        · intro h
          rcases Bool.or_eq_true_iff.mp h with h | h
          · obtain ⟨k, hk, rest⟩ := (ih hn' i).mp h
            exact ⟨k, Nat.lt_succ_of_lt hk, rest⟩
          · exact ⟨n, Nat.lt_succ_self n, hpow.mp h, hc⟩
        · rintro ⟨k, hk, hik, hcond⟩
          rcases Nat.lt_succ_iff_lt_or_eq.mp hk with hk' | rfl
          · exact Bool.or_eq_true_iff.mpr (Or.inl ((ih hn' i).mpr ⟨k, hk', hik, hcond⟩))
          · exact Bool.or_eq_true_iff.mpr (Or.inr (hpow.mpr hik))
      · rw [if_neg hc, ih hn' i]
        constructor
        · rintro ⟨k, hk, rest⟩
          exact ⟨k, Nat.lt_succ_of_lt hk, rest⟩
        · rintro ⟨k, hk, hik, hcond⟩
          rcases Nat.lt_succ_iff_lt_or_eq.mp hk with hk' | rfl
          · exact ⟨k, hk', hik, hcond⟩
          · exact absurd hcond hc

lemma rasterByte_testBit (bm : Bitmap1) (y xb k : Nat) (hk : k < 8) :
    ((rasterByte bm y xb).testBit (7 - k) = true ↔
      (xb * 8 + k < bm.width ∧ bm.pixel (xb * 8 + k) y = 0)) := by
  rw [rasterByte_eq_go, rasterByteGo_testBit bm y xb 8 le_rfl (7 - k)]
  constructor
  · rintro ⟨k', hk', hik, hcond⟩
    have : k = k' := by omega
    subst this
    exact hcond
  · intro hcond
    exact ⟨k, hk, rfl, hcond⟩

lemma rasterByte_testBit_high (bm : Bitmap1) (y xb i : Nat) (hi : 8 ≤ i) :
    (rasterByte bm y xb).testBit i = false := by
  rw [rasterByte_eq_go]
  by_contra h
  have h' : (rasterByteGo bm y xb 8).testBit i = true := by
    cases hb : (rasterByteGo bm y xb 8).testBit i
    · exact absurd hb h
    · rfl
  obtain ⟨k, hk, hik, _⟩ := (rasterByteGo_testBit bm y xb 8 le_rfl i).mp h'
  omega

lemma flatMap_length_const {α β : Type} (f : α → List β) (k : Nat) :
    ∀ l : List α, (∀ a ∈ l, (f a).length = k) → (l.flatMap f).length = l.length * k := by
  intro l
  induction l with
  | nil => intro _; simp
  | cons a l ih =>
      intro h
      rw [List.flatMap_cons, List.length_append, ih (fun b hb => h b (List.mem_cons_of_mem a hb)),
        h a (List.mem_cons_self a l), List.length_cons]
      ring

lemma flatMap_congr {α β : Type} {l : List α} {f g : α → List β}
    (h : ∀ a ∈ l, f a = g a) : l.flatMap f = l.flatMap g := by
  induction l with
  | nil => rfl
  | cons a l ih =>
      rw [List.flatMap_cons, List.flatMap_cons, h a (List.mem_cons_self a l),
        ih (fun b hb => h b (List.mem_cons_of_mem a hb))]

lemma flatMap_eq_nil {α β : Type} (l : List α) (f : α → List β)
    (h : ∀ a, f a = []) : l.flatMap f = [] := by
  induction l with
  | nil => rfl
  | cons a l ih => rw [List.flatMap_cons, h a, List.nil_append, ih]

lemma rangeFlatMap_get? {β : Type} (f : Nat → List β) (k : Nat) :
    ∀ n i j, (∀ y, y < n → (f y).length = k) → i < n → j < k →
      ((List.range n).flatMap f).get? (i * k + j) = (f i).get? j := by
  intro n
  induction n with
  | zero => intro i j _ hi _; exact absurd hi (Nat.not_lt_zero i)
  | succ n ih =>
      intro i j hlen hi hj
      rw [List.range_succ, List.flatMap_append, List.flatMap_cons, List.flatMap_nil,
        List.append_nil]
      have hplen : ((List.range n).flatMap f).length = n * k := by
        have := flatMap_length_const f k (List.range n)
          (fun a ha => hlen a (Nat.lt_succ_of_lt (List.mem_range.mp ha)))
        simpa using this
      rcases Nat.lt_succ_iff_lt_or_eq.mp hi with hi' | rfl
      · have hlt : i * k + j < n * k := by
          have h1 : i * k + j < (i + 1) * k := by
            rw [Nat.succ_mul]
            exact Nat.add_lt_add_left hj _
          have h2 : (i + 1) * k ≤ n * k := Nat.mul_le_mul_right k hi'
          exact Nat.lt_of_lt_of_le h1 h2
        rw [List.get?_append (by rw [hplen]; exact hlt)]
        exact ih i j (fun y hy => hlen y (Nat.lt_succ_of_lt hy)) hi' hj
      · rw [List.get?_append_right (by rw [hplen]; exact Nat.le_add_right _ _)]
        rw [hplen]
        congr 1
        omega

lemma raster_data_get? (bm : Bitmap1) (y xb : Nat)
    (hy : y < bm.height) (hxb : xb < bm.width_bytes) :
    (raster_data bm).get? (y * bm.width_bytes + xb) = some (rasterByte bm y xb) := by
  unfold raster_data
  rw [rangeFlatMap_get? _ bm.width_bytes bm.height y xb
    (fun y' _ => by simp) hy hxb]
  rw [List.get?_map, List.get?_range hxb]
  rfl

lemma raster_data_length (bm : Bitmap1) :
    (raster_data bm).length = bm.width_bytes * bm.height := by
  unfold raster_data
  have := flatMap_length_const (fun y => (List.range bm.width_bytes).map (rasterByte bm y))
    bm.width_bytes (List.range bm.height) (fun a _ => by simp)
  simpa [Nat.mul_comm] using this

/-- C1 counterexample: the frame for the 16×8 all-black bitmap begins with
the raster-command marker byte `0x1D`, not with the mode byte `0x00`, so the
first 8 bytes of the frame are not "the mode byte followed by the two
little-endian 16-bit dimensions" alone. -/
theorem c1_counterexample :
    image_to_raster blackBitmap =
      [0x1D, 0x76, 0x30, 0x00, 2, 0, 8, 0] ++ List.replicate 16 0xFF ∧
    (image_to_raster blackBitmap).get? 0 ≠ some 0x00 := by
  constructor
  · decide
  · decide

/-- C1 (amended): the frame built by `image_to_raster` starts with the 8-byte
header `1D 76 30`, mode byte `0x00`, then `width_bytes = ceil(width/8)` and
`height` each as a little-endian 16-bit value; the packed row bytes follow
immediately, `width_bytes * height` of them with no inter-row padding, the
byte of row `y` at byte-column `xb` packing 8 horizontal pixels MSB-first
with bit 1 exactly for a dark (value 0) pixel inside the bitmap width; and
the 16×8 all-black bitmap yields `width_bytes = 2`, `height = 8`, and sixteen
`0xFF` data bytes. -/
theorem c1_raster_frame_layout (bm : Bitmap1) (y xb k : Nat)
    (hy : y < bm.height) (hxb : xb < bm.width_bytes) (hk : k < 8) :
    (image_to_raster bm).take 8 =
      [0x1D, 0x76, 0x30, 0x00, bm.width_bytes % 256, bm.width_bytes / 256 % 256,
        bm.height % 256, bm.height / 256 % 256] ∧
    (image_to_raster bm).drop 8 = raster_data bm ∧
    (raster_data bm).length = bm.width_bytes * bm.height ∧
    (raster_data bm).get? (y * bm.width_bytes + xb) = some (rasterByte bm y xb) ∧
    ((rasterByte bm y xb).testBit (7 - k) = true ↔
      (xb * 8 + k < bm.width ∧ bm.pixel (xb * 8 + k) y = 0)) ∧
    image_to_raster blackBitmap =
      [0x1D, 0x76, 0x30, 0x00, 2, 0, 8, 0] ++ List.replicate 16 0xFF := by
  refine ⟨?_, ?_, raster_data_length bm, raster_data_get? bm y xb hy hxb,
    rasterByte_testBit bm y xb k hk, by decide⟩
  · rfl
  · rfl

/-- C1 witness: the amended frame-layout theorem instantiated on the 16×8
all-black bitmap at row 0, byte-column 0, bit 0. -/
theorem c1_raster_frame_layout_witness :
    (image_to_raster blackBitmap).take 8 = [0x1D, 0x76, 0x30, 0x00, 2, 0, 8, 0] ∧
    (image_to_raster blackBitmap).drop 8 = raster_data blackBitmap ∧
    (raster_data blackBitmap).length = 2 * 8 ∧
    (raster_data blackBitmap).get? (0 * 2 + 0) = some (rasterByte blackBitmap 0 0) ∧
    ((rasterByte blackBitmap 0 0).testBit (7 - 0) = true ↔
      (0 * 8 + 0 < blackBitmap.width ∧ blackBitmap.pixel (0 * 8 + 0) 0 = 0)) ∧
    image_to_raster blackBitmap =
      [0x1D, 0x76, 0x30, 0x00, 2, 0, 8, 0] ++ List.replicate 16 0xFF :=
  c1_raster_frame_layout blackBitmap 0 0 0 (by decide) (by decide) (by decide)

lemma getD_head8_append (l₂ : List Nat) (a b c d e f g h m : Nat) :
    ([a, b, c, d, e, f, g, h] ++ l₂).getD (8 + m) 0 = l₂.getD m 0 := by
  rw [List.getD_eq_getD_get?, List.getD_eq_getD_get?,
    List.get?_append_right (by simp)]
  simp

lemma decode_header_encode (bm : Bitmap1)
    (hw : bm.width_bytes < 65536) (hh : bm.height < 65536) :
    decode_header (image_to_raster bm) = (bm.width_bytes, bm.height) := by
  show (bm.width_bytes % 256 + 256 * (bm.width_bytes / 256 % 256),
        bm.height % 256 + 256 * (bm.height / 256 % 256)) = (bm.width_bytes, bm.height)
  congr 1 <;> omega

/-- C2 counterexample: a bitmap whose height does not fit in 16 bits.  Its
frame's little-endian 16-bit height field wraps to 0, so decoding the header
does not recover the `(width_bytes, height)` pair used to encode it. -/
theorem c2_counterexample :
    decode_header (image_to_raster tallBitmap) ≠
      (tallBitmap.width_bytes, tallBitmap.height) := by
  have hdata : raster_data tallBitmap = [] :=
    flatMap_eq_nil _ _ (fun y => rfl)
  have hframe : image_to_raster tallBitmap = [0x1D, 0x76, 0x30, 0, 0, 0, 0, 0] := by
    unfold image_to_raster
    rw [hdata]
    rfl
  rw [hframe]
  decide

/-- C2 (amended): for every bitmap whose `width_bytes` and `height` both fit
in 16 bits, decoding the frame header recovers exactly the
`(width_bytes, height)` pair used to encode it, and re-encoding the bitmap
decoded from the frame yields a frame byte-identical to the original. -/
theorem c2_raster_roundtrip (bm : Bitmap1)
    (hw : bm.width_bytes < 65536) (hh : bm.height < 65536) :
    decode_header (image_to_raster bm) = (bm.width_bytes, bm.height) ∧
    image_to_raster (decode_bitmap (image_to_raster bm)) = image_to_raster bm := by
  have hdr := decode_header_encode bm hw hh
  refine ⟨hdr, ?_⟩
  set bm' := decode_bitmap (image_to_raster bm) with hbm'
  have hw' : bm'.width = 8 * bm.width_bytes := by
    show 8 * (decode_header (image_to_raster bm)).1 = 8 * bm.width_bytes
    rw [hdr]
  have hh' : bm'.height = bm.height := by
    show (decode_header (image_to_raster bm)).2 = bm.height
    rw [hdr]
  have hwB' : bm'.width_bytes = bm.width_bytes := by
    have h8 : ∀ t : Nat, (8 * t + 7) / 8 = t := fun t => by omega
    show (bm'.width + 7) / 8 = bm.width_bytes
    rw [hw']
    exact h8 _
  have hpix : ∀ x y, bm'.pixel x y =
      if ((image_to_raster bm).getD (8 + y * (decode_header (image_to_raster bm)).1 + x / 8) 0).testBit
        (7 - x % 8) then 0 else 255 := fun x y => rfl
  have hdata : raster_data bm' = raster_data bm := by
    unfold raster_data
    rw [hh', hwB']
    apply flatMap_congr
    intro y hy
    apply List.map_congr_left
    intro xb hxb
    have hylt : y < bm.height := List.mem_range.mp hy
    have hxblt : xb < bm.width_bytes := List.mem_range.mp hxb
    apply Nat.eq_of_testBit_eq
    intro i
    by_cases hi : 8 ≤ i
    · rw [rasterByte_testBit_high _ _ _ _ hi, rasterByte_testBit_high _ _ _ _ hi]
    · push_neg at hi
      have hik : i = 7 - (7 - i) := by omega
      rw [hik]
      apply bool_eq_of_true_iff
      rw [rasterByte_testBit bm' y xb (7 - i) (by omega),
        rasterByte_testBit bm y xb (7 - i) (by omega)]
      have hxlt : xb * 8 + (7 - i) < bm'.width := by
        rw [hw']
        omega
      have hdiv : (xb * 8 + (7 - i)) / 8 = xb := by omega
      have hmod : (xb * 8 + (7 - i)) % 8 = 7 - i := by omega
      have hgetD : (image_to_raster bm).getD (8 + (y * bm.width_bytes + xb)) 0 =
          rasterByte bm y xb := by
        unfold image_to_raster
        rw [getD_head8_append, List.getD_eq_getD_get?,
          raster_data_get? bm y xb hylt hxblt]
        rfl
      have hpix0 : bm'.pixel (xb * 8 + (7 - i)) y = 0 ↔
          (rasterByte bm y xb).testBit (7 - (7 - i)) = true := by
        rw [hpix, hdr]
        simp only [hdiv, hmod]
        rw [show 8 + y * bm.width_bytes + xb = 8 + (y * bm.width_bytes + xb) by omega, hgetD]
        by_cases hb : (rasterByte bm y xb).testBit (7 - (7 - i)) = true
        · rw [if_pos hb]
          exact ⟨fun _ => hb, fun _ => rfl⟩
        · rw [if_neg hb]
          exact ⟨fun h0 => absurd h0 (by norm_num), fun h => absurd h hb⟩
      constructor
      · rintro ⟨_, hp⟩
        exact (rasterByte_testBit bm y xb (7 - i) (by omega)).mp (hpix0.mp hp)
      · intro horig
        exact ⟨hxlt, hpix0.mpr ((rasterByte_testBit bm y xb (7 - i) (by omega)).mpr horig)⟩
  unfold image_to_raster
  rw [hdata, hwB', hh']

/-- C2 witness: the round-trip theorem instantiated on the 16×8 all-black
bitmap, whose dimensions fit in 16 bits. -/
theorem c2_raster_roundtrip_witness :
    decode_header (image_to_raster blackBitmap) = (2, 8) ∧
    image_to_raster (decode_bitmap (image_to_raster blackBitmap)) =
      image_to_raster blackBitmap :=
  c2_raster_roundtrip blackBitmap (by decide) (by decide)

/-- C10: when the bitmap width is not a multiple of 8, every bit of a row's
final data byte that corresponds to a pixel position at or past the bitmap
width is 0 (the row is padded with non-printing white bits). -/
theorem c10_row_padding (bm : Bitmap1) (y k : Nat) (hw : bm.width % 8 ≠ 0)
    (hy : y < bm.height) (hk8 : k < 8) (hk : bm.width % 8 ≤ k) :
    ∃ b, (raster_data bm).get? (y * bm.width_bytes + (bm.width_bytes - 1)) = some b ∧
      b.testBit (7 - k) = false := by
  have hwB : bm.width_bytes = bm.width / 8 + 1 := by
    unfold Bitmap1.width_bytes
    omega
  have hxb : bm.width_bytes - 1 < bm.width_bytes := by omega
  refine ⟨rasterByte bm y (bm.width_bytes - 1), raster_data_get? bm y _ hy hxb, ?_⟩
  by_contra hcontra
  have htrue : (rasterByte bm y (bm.width_bytes - 1)).testBit (7 - k) = true := by
    cases hb : (rasterByte bm y (bm.width_bytes - 1)).testBit (7 - k)
    · exact absurd hb hcontra
    · rfl
  obtain ⟨hlt, _⟩ := (rasterByte_testBit bm y _ k hk8).mp htrue
  rw [hwB] at hlt
  omega

/-- C10 witness: the padding theorem instantiated on a 12×1 all-black
bitmap at row 0, padding bit position 4. -/
theorem c10_row_padding_witness :
    ∃ b, (raster_data black12Bitmap).get?
        (0 * black12Bitmap.width_bytes + (black12Bitmap.width_bytes - 1)) = some b ∧
      b.testBit (7 - 4) = false :=
  c10_row_padding black12Bitmap 0 4 (by decide) (by decide) (by decide) (by decide)

/-! ## Word wrapper (src/markdown_printer.py, `word_wrap`) -/

/-- Whitespace recognised by Python's `str.split()`: the ASCII whitespace
characters (space, tab, newline, carriage return, vertical tab, form feed).
Exotic Unicode space classes, which `str.split()` also strips, never reach
the wrapper in this pipeline and are not modelled. -/
def pyIsSpace (c : Char) : Bool :=
  c == ' ' || c == '\t' || c == '\n' || c == '\r' ||
  c == Char.ofNat 11 || c == Char.ofNat 12

/-- One step of the right fold implementing `str.split()`: the pair is
(word currently being collected, words already emitted to the right). -/
def pyWordsStep (c : Char) (p : List Char × List (List Char)) :
    List Char × List (List Char) :=
  if pyIsSpace c then ([], if p.1 = [] then p.2 else p.1 :: p.2)
  else (c :: p.1, p.2)

/-- Python's `text.split()`: split on runs of whitespace, dropping empty
tokens. -/
def pyWords (s : List Char) : List (List Char) :=
  let p := s.foldr pyWordsStep ([], [])
  if p.1 = [] then p.2 else p.1 :: p.2

/-- Python's `' '.join(words)`. -/
def joinSpace : List (List Char) → List Char
  | [] => []
  | [w] => w
  | w :: ws => w ++ ' ' :: joinSpace ws

/-- The hard-split loop `for i in range(0, word_length, max_chars):
lines.append(word[i:i + max_chars])`, driven by a fuel argument (the word
length suffices as fuel whenever `max_chars ≥ 1`). -/
def chunksGo (maxc : Nat) : Nat → List Char → List (List Char)
  | 0, _ => []
  | _, [] => []
  | fuel + 1, w => w.take maxc :: chunksGo maxc fuel (w.drop maxc)

/-- The hard-split of a long word.  Python's `range(0, n, 0)` raises
`ValueError`, which is the only failure mode of `word_wrap`. -/
def pyChunks (w : List Char) (maxc : Nat) : Except String (List (List Char)) :=
  if maxc = 0 then Except.error "ValueError: range() arg 3 must not be zero"
  else Except.ok (chunksGo maxc w.length w)

/-- The loop state of `word_wrap`: `lines`, `current_line` (a list of words)
and `current_length`. -/
structure WrapSt where
  lines : List (List Char)
  cur : List (List Char)
  curLen : Nat

/-- Python's `if current_line: lines.append(' '.join(current_line))`. -/
def flushCur (st : WrapSt) : List (List Char) :=
  if st.cur = [] then st.lines else st.lines ++ [joinSpace st.cur]

/-- One iteration of the `for word in words` loop of `word_wrap`
(`new_length = current_length + word_length + (1 if current_line else 0)`,
written out at each use site). -/
def wrapStep (maxc : Nat) (st : WrapSt) (word : List Char) : Except String WrapSt :=
  if maxc < word.length then
    match pyChunks word maxc with
    | Except.error e => Except.error e
    | Except.ok cs => Except.ok ⟨flushCur st ++ cs, [], 0⟩
  else
    if st.curLen + word.length + (if st.cur = [] then 0 else 1) ≤ maxc then
      Except.ok ⟨st.lines, st.cur ++ [word],
        st.curLen + word.length + (if st.cur = [] then 0 else 1)⟩
    else Except.ok ⟨flushCur st, [word], word.length⟩

/-- `word_wrap(text, max_chars)` from `src/markdown_printer.py`: greedy word
wrap, hard-splitting over-long words, returning `['']` when no line was
produced. -/
def word_wrap (text : List Char) (maxc : Nat) : Except String (List (List Char)) :=
  match (pyWords text).foldlM (wrapStep maxc) ⟨[], [], 0⟩ with
  | Except.error e => Except.error e
  | Except.ok st =>
      let lines := flushCur st
      Except.ok (if lines = [] then [[]] else lines)

/-- A word as produced by `str.split()`: non-empty and whitespace-free. -/
def GoodWord (w : List Char) : Prop :=
  w ≠ [] ∧ ∀ c ∈ w, pyIsSpace c = false

lemma pyWords_state_good (s : List Char) :
    (∀ c ∈ (s.foldr pyWordsStep ([], [])).1, pyIsSpace c = false) ∧
    (∀ w ∈ (s.foldr pyWordsStep ([], [])).2, GoodWord w) := by
  induction s with
  | nil =>
      exact ⟨fun c hc => absurd hc (List.not_mem_nil c),
        fun w hw => absurd hw (List.not_mem_nil w)⟩
  | cons c cs ih =>
      rw [List.foldr_cons]
      set p := cs.foldr pyWordsStep ([], []) with hp
      show (∀ c' ∈ (pyWordsStep c p).1, pyIsSpace c' = false) ∧
        (∀ w ∈ (pyWordsStep c p).2, GoodWord w)
      unfold pyWordsStep
      by_cases hc : pyIsSpace c = true
      · rw [if_pos hc]
        refine ⟨fun c' hc' => absurd hc' (List.not_mem_nil c'), ?_⟩
        by_cases hnil : p.1 = []
        · rw [if_pos hnil]
          exact ih.2
        · rw [if_neg hnil]
          intro w hw
          rcases List.mem_cons.mp hw with rfl | hw'
          · exact ⟨hnil, ih.1⟩
          · exact ih.2 w hw'
      · rw [if_neg hc]
        refine ⟨?_, ih.2⟩
        intro c' hc'
        rcases List.mem_cons.mp hc' with rfl | hc''
        · exact Bool.eq_false_iff.mpr hc
        · exact ih.1 c' hc''

lemma pyWords_good (s : List Char) : ∀ w ∈ pyWords s, GoodWord w := by
  have h := pyWords_state_good s
  set p := s.foldr pyWordsStep ([], []) with hp
  show ∀ w ∈ (if p.1 = [] then p.2 else p.1 :: p.2), GoodWord w
  by_cases hnil : p.1 = []
  · rw [if_pos hnil]
    exact h.2
  · rw [if_neg hnil]
    intro w hw
    rcases List.mem_cons.mp hw with rfl | hw'
    · exact ⟨hnil, h.1⟩
    · exact h.2 w hw'

lemma foldr_nonspace (w : List Char) (q : List Char × List (List Char))
    (h : ∀ c ∈ w, pyIsSpace c = false) :
    w.foldr pyWordsStep q = (w ++ q.1, q.2) := by
  induction w with
  | nil => rfl
  | cons c cs ih =>
      rw [List.foldr_cons, ih (fun c' hc' => h c' (List.mem_cons_of_mem c hc'))]
      unfold pyWordsStep
      rw [h c (List.mem_cons_self c cs)]
      rfl

lemma pyWords_single (w : List Char) (h : GoodWord w) : pyWords w = [w] := by
  unfold pyWords
  rw [foldr_nonspace w ([], []) h.2]
  simp [h.1]

lemma pyWords_word_space (w t : List Char) (h : GoodWord w) :
    pyWords (w ++ ' ' :: t) = w :: pyWords t := by
  unfold pyWords
  rw [List.foldr_append, List.foldr_cons]
  have hsp : pyWordsStep ' ' (t.foldr pyWordsStep ([], [])) = ([], pyWords t) := by
    unfold pyWordsStep
    rw [if_pos (by rfl)]
    unfold pyWords
    rfl
  rw [hsp, foldr_nonspace w ([], pyWords t) h.2]
  simp only [List.append_nil, if_neg h.1]
  rfl

lemma joinSpace_cons_cons (w v : List Char) (ws : List (List Char)) :
    joinSpace (w :: v :: ws) = w ++ ' ' :: joinSpace (v :: ws) := rfl

lemma joinSpace_append_single (ws : List (List Char)) (w : List Char) :
    joinSpace (ws ++ [w]) = if ws = [] then w else joinSpace ws ++ ' ' :: w := by
  induction ws with
  | nil => rfl
  | cons v vs ih =>
      cases vs with
      | nil => rfl
      | cons u us =>
          simp only [List.cons_append]
          rw [joinSpace_cons_cons]
          simp only [List.cons_append] at ih
          rw [ih, if_neg (by simp), if_neg (by simp), joinSpace_cons_cons]
          simp [List.append_assoc]

lemma joinSpace_append (ws₁ ws₂ : List (List Char)) (h1 : ws₁ ≠ []) (h2 : ws₂ ≠ []) :
    joinSpace (ws₁ ++ ws₂) = joinSpace ws₁ ++ ' ' :: joinSpace ws₂ := by
  induction ws₁ with
  | nil => exact absurd rfl h1
  | cons v vs ih =>
      cases vs with
      | nil =>
          cases ws₂ with
          | nil => exact absurd rfl h2
          | cons u us => rfl
      | cons u us =>
          simp only [List.cons_append]
          rw [joinSpace_cons_cons]
          have ih' := ih (by simp)
          simp only [List.cons_append] at ih'
          rw [ih', joinSpace_cons_cons]
          simp [List.append_assoc]

lemma flatten_ne_nil (gs : List (List (List Char))) (hne : gs ≠ [])
    (h : ∀ g ∈ gs, g ≠ []) : gs.flatten ≠ [] := by
  cases gs with
  | nil => exact absurd rfl hne
  | cons g gs =>
      rw [List.flatten_cons]
      exact List.append_ne_nil_of_left_ne_nil (h g (List.mem_cons_self g gs)) _

lemma joinSpace_flatten (gs : List (List (List Char))) (h : ∀ g ∈ gs, g ≠ []) :
    joinSpace (gs.map joinSpace) = joinSpace gs.flatten := by
  induction gs with
  | nil => rfl
  | cons g gs ih =>
      cases gs with
      | nil => simp [joinSpace]
      | cons g2 gs2 =>
          have hg : g ≠ [] := h g (by simp)
          have hrest : ∀ g' ∈ g2 :: gs2, g' ≠ [] :=
            fun g' hg' => h g' (List.mem_cons_of_mem g hg')
          have hfl : (g2 :: gs2).flatten ≠ [] := flatten_ne_nil _ (by simp) hrest
          rw [List.flatten_cons, joinSpace_append g (g2 :: gs2).flatten hg hfl,
            ← ih hrest, List.map_cons, List.map_cons, joinSpace_cons_cons,
            ← List.map_cons]

lemma pyWords_joinSpace (ws : List (List Char)) (h : ∀ w ∈ ws, GoodWord w) :
    pyWords (joinSpace ws) = ws := by
  induction ws with
  | nil => rfl
  | cons w vs ih =>
      cases vs with
      | nil => exact pyWords_single w (h w (List.mem_cons_self w []))
      | cons v us =>
          rw [joinSpace_cons_cons,
            pyWords_word_space w _ (h w (List.mem_cons_self w (v :: us))),
            ih (fun w' hw' => h w' (List.mem_cons_of_mem w hw'))]

lemma chunksGo_nil (maxc : Nat) : ∀ fuel, chunksGo maxc fuel [] = [] := by
  intro fuel
  cases fuel <;> rfl

lemma chunksGo_length_le (maxc : Nat) :
    ∀ fuel w c, c ∈ chunksGo maxc fuel w → c.length ≤ maxc := by
  intro fuel
  induction fuel with
  | zero =>
      intro w c hc
      cases w with
      | nil =>
          rw [show chunksGo maxc 0 [] = [] from rfl] at hc
          exact absurd hc (List.not_mem_nil c)
      | cons a as =>
          rw [show chunksGo maxc 0 (a :: as) = [] from rfl] at hc
          exact absurd hc (List.not_mem_nil c)
  | succ fuel ih =>
      intro w c hc
      cases w with
      | nil =>
          rw [show chunksGo maxc (fuel + 1) [] = [] from rfl] at hc
          exact absurd hc (List.not_mem_nil c)
      | cons a as =>
          rcases List.mem_cons.mp hc with rfl | hc'
          · rw [List.length_take]
            exact min_le_left _ _
          · exact ih _ c hc'

lemma chunksGo_ne_nil (maxc fuel : Nat) (w : List Char) (hw : w ≠ [])
    (hf : 1 ≤ fuel) : chunksGo maxc fuel w ≠ [] := by
  cases fuel with
  | zero => omega
  | succ fuel =>
      cases w with
      | nil => exact absurd rfl hw
      | cons a as => simp [chunksGo]

lemma chunksGo_dropLast (maxc : Nat) (h1 : 1 ≤ maxc) :
    ∀ fuel w, w.length ≤ fuel →
      ∀ c ∈ (chunksGo maxc fuel w).dropLast, c.length = maxc := by
  intro fuel
  induction fuel with
  | zero => intro w _ c hc; simp [chunksGo] at hc
  | succ fuel ih =>
      intro w hwf c hc
      cases w with
      | nil => simp [chunksGo] at hc
      | cons a as =>
          rw [show chunksGo maxc (fuel + 1) (a :: as) =
            (a :: as).take maxc :: chunksGo maxc fuel ((a :: as).drop maxc) from rfl] at hc
          by_cases hrest : chunksGo maxc fuel ((a :: as).drop maxc) = []
          · rw [hrest] at hc
            simp at hc
          · rw [List.dropLast_cons_of_ne_nil hrest] at hc
            rcases List.mem_cons.mp hc with rfl | hc'
            · have hdrop : (a :: as).drop maxc ≠ [] := by
                intro hdn
                exact hrest (hdn ▸ chunksGo_nil maxc fuel)
              have hlen : maxc < (a :: as).length := by
                have := List.length_drop maxc (a :: as)
                by_contra hle
                push_neg at hle
                apply hdrop
                exact List.drop_eq_nil_of_le hle
              rw [List.length_take]
              omega
            · refine ih ((a :: as).drop maxc) ?_ c hc'
              rw [List.length_drop]
              simp only [List.length_cons] at hwf ⊢
              omega

lemma foldlM_cons_ok {maxc : Nat} {st st₁ : WrapSt} {w : List Char}
    {ws : List (List Char)} (hstep : wrapStep maxc st w = Except.ok st₁) :
    (w :: ws).foldlM (wrapStep maxc) st = ws.foldlM (wrapStep maxc) st₁ := by
  rw [List.foldlM_cons, hstep]
  rfl

lemma wrap_fold_len (maxc : Nat) (h1 : 1 ≤ maxc) :
    ∀ (ws : List (List Char)) (st : WrapSt), (∀ l ∈ st.lines, l.length ≤ maxc) →
      (joinSpace st.cur).length = st.curLen → st.curLen ≤ maxc →
      ∃ st', ws.foldlM (wrapStep maxc) st = Except.ok st' ∧
        (∀ l ∈ st'.lines, l.length ≤ maxc) ∧
        (joinSpace st'.cur).length = st'.curLen ∧ st'.curLen ≤ maxc := by
  intro ws
  induction ws with
  | nil =>
      intro st hl hc hcl
      exact ⟨st, rfl, hl, hc, hcl⟩
  | cons w ws ih =>
      intro st hl hc hcl
      have hflush : ∀ l ∈ flushCur st, l.length ≤ maxc := by
        intro l hml
        unfold flushCur at hml
        by_cases hnil : st.cur = []
        · rw [if_pos hnil] at hml
          exact hl l hml
        · rw [if_neg hnil] at hml
          rcases List.mem_append.mp hml with h' | h'
          · exact hl l h'
          · rw [List.mem_singleton.mp h']
            rw [hc]
            exact hcl
      by_cases hlong : maxc < w.length
      · have hstep : wrapStep maxc st w =
            Except.ok ⟨flushCur st ++ chunksGo maxc w.length w, [], 0⟩ := by
          unfold wrapStep pyChunks
          rw [if_pos hlong, if_neg (by omega)]
        rw [foldlM_cons_ok hstep]
        refine ih _ ?_ rfl (Nat.zero_le maxc)
        intro l hml
        rcases List.mem_append.mp hml with h' | h'
        · exact hflush l h'
        · exact chunksGo_length_le maxc w.length w l h'
      · by_cases hfits : st.curLen + w.length + (if st.cur = [] then 0 else 1) ≤ maxc
        · have hstep : wrapStep maxc st w =
              Except.ok ⟨st.lines, st.cur ++ [w],
                st.curLen + w.length + (if st.cur = [] then 0 else 1)⟩ := by
            unfold wrapStep
            rw [if_neg hlong, if_pos hfits]
          rw [foldlM_cons_ok hstep]
          refine ih _ hl ?_ ?_
          · show (joinSpace (st.cur ++ [w])).length =
              st.curLen + w.length + (if st.cur = [] then 0 else 1)
            rw [joinSpace_append_single]
            by_cases hnil : st.cur = []
            · rw [if_pos hnil, if_pos hnil]
              rw [hnil, show joinSpace [] = [] from rfl] at hc
              simp only [List.length_nil] at hc
              omega
            · rw [if_neg hnil, if_neg hnil]
              simp only [List.length_append, List.length_cons]
              omega
          · exact hfits
        · have hstep : wrapStep maxc st w =
              Except.ok ⟨flushCur st, [w], w.length⟩ := by
            unfold wrapStep
            rw [if_neg hlong, if_neg hfits]
          rw [foldlM_cons_ok hstep]
          refine ih _ hflush rfl ?_
          show w.length ≤ maxc
          omega

/-- C3: with a positive character budget, `word_wrap` succeeds and every
returned line has length at most `max_chars`; a single whitespace-free word
longer than `max_chars` is hard-split into chunks that are all exactly
`max_chars` long except possibly the last; and
`wrap("aaaaaaaaaa", 4) = ["aaaa", "aaaa", "aa"]`. -/
theorem c3_wrap_line_length (text : List Char) (maxc : Nat) (h1 : 1 ≤ maxc) :
    (∃ ls, word_wrap text maxc = Except.ok ls ∧ ∀ l ∈ ls, l.length ≤ maxc) ∧
    (∀ w : List Char, GoodWord w → maxc < w.length →
      ∃ cs, word_wrap w maxc = Except.ok cs ∧
        (∀ c ∈ cs.dropLast, c.length = maxc) ∧ ∀ c ∈ cs, c.length ≤ maxc) ∧
    word_wrap (String.toList "aaaaaaaaaa") 4 =
      Except.ok [String.toList "aaaa", String.toList "aaaa", String.toList "aa"] := by
  refine ⟨?_, ?_, by rfl⟩
  · obtain ⟨st', hfold, hl', hc', hcl'⟩ :=
      wrap_fold_len maxc h1 (pyWords text) ⟨[], [], 0⟩
        (fun l hl => absurd hl (List.not_mem_nil l)) rfl (Nat.zero_le maxc)
    have hflush : ∀ l ∈ flushCur st', l.length ≤ maxc := by
      intro l hml
      unfold flushCur at hml
      by_cases hnil : st'.cur = []
      · rw [if_pos hnil] at hml
        exact hl' l hml
      · rw [if_neg hnil] at hml
        rcases List.mem_append.mp hml with h' | h'
        · exact hl' l h'
        · rw [List.mem_singleton.mp h', hc']
          exact hcl'
    unfold word_wrap
    rw [hfold]
    by_cases hfl : flushCur st' = []
    · refine ⟨[[]], ?_, ?_⟩
      · show Except.ok (if flushCur st' = [] then [[]] else flushCur st') = Except.ok [[]]
        rw [if_pos hfl]
      · intro l hml
        rw [List.mem_singleton.mp hml]
        exact Nat.zero_le maxc
    · refine ⟨flushCur st', ?_, hflush⟩
      show Except.ok (if flushCur st' = [] then [[]] else flushCur st') =
        Except.ok (flushCur st')
      rw [if_neg hfl]
  · intro w hgw hlong
    have hwpos : 0 < w.length := List.length_pos.mpr hgw.1
    have hstep : wrapStep maxc ⟨[], [], 0⟩ w =
        Except.ok ⟨chunksGo maxc w.length w, [], 0⟩ := by
      unfold wrapStep pyChunks
      rw [if_pos hlong, if_neg (by omega)]
      rfl
    have hcs : chunksGo maxc w.length w ≠ [] :=
      chunksGo_ne_nil maxc w.length w hgw.1 (by omega)
    refine ⟨chunksGo maxc w.length w, ?_,
      chunksGo_dropLast maxc h1 w.length w le_rfl,
      fun c hc => chunksGo_length_le maxc w.length w c hc⟩
    unfold word_wrap
    rw [pyWords_single w hgw, foldlM_cons_ok hstep]
    show Except.ok (if flushCur ⟨chunksGo maxc w.length w, [], 0⟩ = []
      then [[]] else flushCur ⟨chunksGo maxc w.length w, [], 0⟩) = _
    unfold flushCur
    rw [if_pos rfl, if_neg hcs]

/-- C3 witness: the wrap-invariant theorem instantiated at text `"hi"` and
budget 4. -/
theorem c3_wrap_line_length_witness :
    ∃ ls, word_wrap (String.toList "hi") 4 = Except.ok ls ∧
      ∀ l ∈ ls, l.length ≤ 4 :=
  (c3_wrap_line_length (String.toList "hi") 4 (by decide)).1

/-- C6 counterexample: `word_wrap` performs no validation of
`max_chars == 0`; on whitespace-free input it terminates normally and
returns `['']` instead of failing with a typed error. -/
theorem c6_counterexample :
    word_wrap [] 0 = Except.ok [[]] ∧ ∀ e, word_wrap [] 0 ≠ Except.error e := by
  refine ⟨rfl, ?_⟩
  intro e h
  rw [show word_wrap [] 0 = Except.ok [[]] from rfl] at h
  exact Except.noConfusion h

/-- C6 (amended): `word_wrap(text, 0)` has no typed `InvalidArgument`
validation.  When the input contains no word it returns `['']` normally;
when the input contains at least one word the hard-split loop's
`range(0, n, 0)` raises an untyped `ValueError`. -/
theorem c6_wrap_zero_behavior (text : List Char) :
    (pyWords text = [] → word_wrap text 0 = Except.ok [[]]) ∧
    (pyWords text ≠ [] →
      word_wrap text 0 =
        Except.error "ValueError: range() arg 3 must not be zero") := by
  constructor
  · intro h
    unfold word_wrap
    rw [h]
    rfl
  · intro h
    cases hpw : pyWords text with
    | nil => exact absurd hpw h
    | cons w ws =>
        have hgw : GoodWord w := pyWords_good text w (by
          rw [hpw]
          exact List.mem_cons_self w ws)
        have hwlen : 0 < w.length := List.length_pos.mpr hgw.1
        have hstep : wrapStep 0 ⟨[], [], 0⟩ w =
            Except.error "ValueError: range() arg 3 must not be zero" := by
          unfold wrapStep pyChunks
          rw [if_pos hwlen, if_pos rfl]
        unfold word_wrap
        rw [hpw, List.foldlM_cons, hstep]
        rfl

/-- C6 witness: the amended theorem instantiated at the one-word input
`"a"`, where `word_wrap` raises the untyped `ValueError`. -/
theorem c6_wrap_zero_behavior_witness :
    word_wrap ['a'] 0 =
      Except.error "ValueError: range() arg 3 must not be zero" :=
  (c6_wrap_zero_behavior ['a']).2 (by decide)

/-- A group of words forming one wrapped line: non-empty, all words good. -/
def GoodGroup (g : List (List Char)) : Prop :=
  g ≠ [] ∧ ∀ w ∈ g, GoodWord w

lemma wrap_fold_content (maxc : Nat) :
    ∀ (ws : List (List Char)) (st : WrapSt) (gs : List (List (List Char))),
      (∀ w ∈ ws, GoodWord w ∧ w.length ≤ maxc) →
      st.lines = gs.map joinSpace → (∀ g ∈ gs, GoodGroup g) →
      (∀ w ∈ st.cur, GoodWord w) →
      ∃ (st' : WrapSt) (gs' : List (List (List Char))),
        ws.foldlM (wrapStep maxc) st = Except.ok st' ∧
        st'.lines = gs'.map joinSpace ∧
        gs'.flatten ++ st'.cur = gs.flatten ++ st.cur ++ ws ∧
        (∀ g ∈ gs', GoodGroup g) ∧ (∀ w ∈ st'.cur, GoodWord w) := by
  intro ws
  induction ws with
  | nil =>
      intro st gs hws hlines hgs hcur
      exact ⟨st, gs, rfl, hlines, by rw [List.append_nil], hgs, hcur⟩
  | cons w ws ih =>
      intro st gs hws hlines hgs hcur
      have hw := hws w (List.mem_cons_self w ws)
      have hws' : ∀ w' ∈ ws, GoodWord w' ∧ w'.length ≤ maxc :=
        fun w' hw' => hws w' (List.mem_cons_of_mem w hw')
      have hnotlong : ¬ maxc < w.length := by omega
      by_cases hfits : st.curLen + w.length + (if st.cur = [] then 0 else 1) ≤ maxc
      · have hstep : wrapStep maxc st w =
            Except.ok ⟨st.lines, st.cur ++ [w],
              st.curLen + w.length + (if st.cur = [] then 0 else 1)⟩ := by
          unfold wrapStep
          rw [if_neg hnotlong, if_pos hfits]
        rw [foldlM_cons_ok hstep]
        obtain ⟨st', gs', hfold, hl', hflat, hgs', hcur'⟩ :=
          ih ⟨st.lines, st.cur ++ [w],
              st.curLen + w.length + (if st.cur = [] then 0 else 1)⟩ gs hws'
            hlines hgs
            (by
              intro w' hw'
              rcases List.mem_append.mp hw' with h' | h'
              · exact hcur w' h'
              · rw [List.mem_singleton.mp h']
                exact hw.1)
        refine ⟨st', gs', hfold, hl', ?_, hgs', hcur'⟩
        rw [hflat]
        show gs.flatten ++ (st.cur ++ [w]) ++ ws = gs.flatten ++ st.cur ++ (w :: ws)
        simp [List.append_assoc]
      · by_cases hnil : st.cur = []
        · have hstep : wrapStep maxc st w =
              Except.ok ⟨st.lines, [w], w.length⟩ := by
            unfold wrapStep flushCur
            rw [if_neg hnotlong, if_neg hfits, if_pos hnil]
          rw [foldlM_cons_ok hstep]
          obtain ⟨st', gs', hfold, hl', hflat, hgs', hcur'⟩ :=
            ih ⟨st.lines, [w], w.length⟩ gs hws' hlines hgs
              (by
                intro w' hw'
                rw [List.mem_singleton.mp hw']
                exact hw.1)
          refine ⟨st', gs', hfold, hl', ?_, hgs', hcur'⟩
          rw [hflat, hnil]
          show gs.flatten ++ [w] ++ ws = gs.flatten ++ [] ++ (w :: ws)
          simp
        · have hstep : wrapStep maxc st w =
              Except.ok ⟨st.lines ++ [joinSpace st.cur], [w], w.length⟩ := by
            unfold wrapStep flushCur
            rw [if_neg hnotlong, if_neg hfits, if_neg hnil]
          rw [foldlM_cons_ok hstep]
          obtain ⟨st', gs', hfold, hl', hflat, hgs', hcur'⟩ :=
            ih ⟨st.lines ++ [joinSpace st.cur], [w], w.length⟩ (gs ++ [st.cur]) hws'
              (by
                show st.lines ++ [joinSpace st.cur] = (gs ++ [st.cur]).map joinSpace
                rw [List.map_append, hlines]
                rfl)
              (by
                intro g hg
                rcases List.mem_append.mp hg with h' | h'
                · exact hgs g h'
                · rw [List.mem_singleton.mp h']
                  exact ⟨hnil, hcur⟩)
              (by
                intro w' hw'
                rw [List.mem_singleton.mp hw']
                exact hw.1)
          refine ⟨st', gs', hfold, hl', ?_, hgs', hcur'⟩
          rw [hflat]
          show (gs ++ [st.cur]).flatten ++ [w] ++ ws =
            gs.flatten ++ st.cur ++ (w :: ws)
          rw [List.flatten_append]
          simp [List.append_assoc]

/-- C8: when every word of the input fits in the budget (so no hard split
occurs), joining the wrapped lines with single spaces and re-splitting on
whitespace reconstructs exactly the whitespace-normalized word sequence of
the input. -/
theorem c8_wrap_content (text : List Char) (maxc : Nat) (h1 : 1 ≤ maxc)
    (h2 : ∀ w ∈ pyWords text, w.length ≤ maxc) :
    ∃ ls, word_wrap text maxc = Except.ok ls ∧
      pyWords (joinSpace ls) = pyWords text := by
  obtain ⟨st', gs', hfold, hl', hflat, hgs', hcur'⟩ :=
    wrap_fold_content maxc (pyWords text) ⟨[], [], 0⟩ []
      (fun w hw => ⟨pyWords_good text w hw, h2 w hw⟩) rfl
      (fun g hg => absurd hg (List.not_mem_nil g))
      (fun w hw => absurd hw (List.not_mem_nil w))
  rw [show ([] : List (List (List Char))).flatten ++ ([] : List (List Char)) ++
      pyWords text = pyWords text from by simp] at hflat
  unfold word_wrap
  rw [hfold]
  by_cases hnil : st'.cur = []
  · have hflush : flushCur st' = gs'.map joinSpace := by
      unfold flushCur
      rw [if_pos hnil, hl']
    by_cases hgnil : gs'.map joinSpace = []
    · have hgs'nil : gs' = [] := by
        cases gs' with
        | nil => rfl
        | cons g gs'' => exact absurd hgnil (by simp)
      refine ⟨[[]], ?_, ?_⟩
      · show Except.ok (if flushCur st' = [] then [[]] else flushCur st') =
          Except.ok [[]]
        rw [hflush, if_pos hgnil]
      · have htext : pyWords text = [] := by
          rw [← hflat, hgs'nil, hnil]
          rfl
        rw [htext]
        rfl
    · refine ⟨gs'.map joinSpace, ?_, ?_⟩
      · show Except.ok (if flushCur st' = [] then [[]] else flushCur st') =
          Except.ok (gs'.map joinSpace)
        rw [hflush, if_neg hgnil]
      · rw [joinSpace_flatten gs' (fun g hg => (hgs' g hg).1),
          pyWords_joinSpace _ (by
            intro w hw
            obtain ⟨g, hg, hwg⟩ := List.mem_flatten.mp hw
            exact (hgs' g hg).2 w hwg),
          ← hflat, hnil, List.append_nil]
  · have hflush : flushCur st' = (gs' ++ [st'.cur]).map joinSpace := by
      unfold flushCur
      rw [if_neg hnil, hl', List.map_append]
      rfl
    have hggood : ∀ g ∈ gs' ++ [st'.cur], GoodGroup g := by
      intro g hg
      rcases List.mem_append.mp hg with h' | h'
      · exact hgs' g h'
      · rw [List.mem_singleton.mp h']
        exact ⟨hnil, hcur'⟩
    refine ⟨(gs' ++ [st'.cur]).map joinSpace, ?_, ?_⟩
    · show Except.ok (if flushCur st' = [] then [[]] else flushCur st') =
        Except.ok ((gs' ++ [st'.cur]).map joinSpace)
      rw [hflush, if_neg (by simp)]
    · rw [joinSpace_flatten _ (fun g hg => (hggood g hg).1),
        pyWords_joinSpace _ (by
          intro w hw
          obtain ⟨g, hg, hwg⟩ := List.mem_flatten.mp hw
          exact (hggood g hg).2 w hwg),
        List.flatten_append, ← hflat]
      simp

/-- C8 witness: the content-preservation theorem instantiated at
`"a b"` with budget 4. -/
theorem c8_wrap_content_witness :
    ∃ ls, word_wrap (String.toList "a b") 4 = Except.ok ls ∧
      pyWords (joinSpace ls) = pyWords (String.toList "a b") :=
  c8_wrap_content (String.toList "a b") 4 (by decide) (by decide)

/-! ## Text normalizer (src/markdown_printer.py, `normalize_text`)

The quotes section of the source's `CHAR_SUBSTITUTIONS` dict literal is
written with plain ASCII quote characters, so Python parses it very
differently from what its `# Quotes` comment suggests: the two lines
`'"': '"',` are one identity entry keyed by the ASCII double quote (a
duplicate key, kept once at its first position), and the two lines
`''': "'",` parse as a single triple-quoted string, producing one entry
whose key is the eleven-character string `: "'",` + newline + four spaces,
mapped to the apostrophe.  Keys are therefore strings, not single
characters, and the table is embedded with `List Char` keys. -/

/-- Does the second list start with the first? -/
def startsWithList : List Char → List Char → Bool
  | [], _ => true
  | _ :: _, [] => false
  | a :: as, b :: bs => a == b && startsWithList as bs

/-- The scan of Python's `str.replace`: at each position, if the needle
matches, emit the replacement and skip the needle's length (non-overlapping,
leftmost first), otherwise keep one character.  The fuel decreases by one
per step; the text length suffices as fuel for a non-empty needle. -/
def pyReplaceGo (needle r : List Char) : Nat → List Char → List Char
  | 0, t => t
  | _ + 1, [] => []
  | fuel + 1, c :: cs =>
      if startsWithList needle (c :: cs) then
        r ++ pyReplaceGo needle r fuel ((c :: cs).drop needle.length)
      else
        c :: pyReplaceGo needle r fuel cs

/-- Python's `text.replace(needle, r)`.  No key of the substitution table is
empty; `str.replace` with an empty needle (which would interleave the
replacement everywhere) is out of the modelled domain and returns the text
unchanged. -/
def pyReplace (text needle r : List Char) : List Char :=
  if needle = [] then text
  else pyReplaceGo needle r text.length text

/-- The `CHAR_SUBSTITUTIONS` table as Python actually parses it, in dict
insertion order: bullets and list markers, arrows, the corrupted quotes
section (ASCII `"` identity entry, then the triple-quoted-string artifact
key), guillemets, dashes, ellipsis, math symbols, fractions, currency,
other symbols, spacing variants. -/
def CHAR_SUBSTITUTIONS : List (List Char × List Char) := [
  (['•'], ['-']), (['◦'], ['-']), (['▪'], ['-']), (['▫'], ['-']),
  (['●'], ['*']), (['○'], ['o']), (['■'], ['#']), (['□'], ['[', ' ', ']']),
  (['✓'], ['[', 'x', ']']), (['✔'], ['[', 'x', ']']),
  (['✗'], ['[', ' ', ']']), (['✘'], ['[', ' ', ']']),
  (['→'], ['-', '>']), (['←'], ['<', '-']), (['↑'], ['^']), (['↓'], ['v']),
  (['⇒'], ['=', '>']), (['⇐'], ['<', '=']),
  (['"'], ['"']),
  ([':', ' ', '"', '\'', '"', ',', '\n', ' ', ' ', ' ', ' '], ['\'']),
  (['«'], ['<', '<']), (['»'], ['>', '>']),
  (['–'], ['-']), (['—'], ['-', '-']), (['―'], ['-']),
  (['…'], ['.', '.', '.']),
  (['×'], ['x']), (['÷'], ['/']), (['±'], ['+', '/', '-']), (['≈'], ['~']),
  (['≠'], ['!', '=']), (['≤'], ['<', '=']), (['≥'], ['>', '=']),
  (['°'], [' ', 'd', 'e', 'g']), (['′'], ['\'']), (['″'], ['"']),
  (['½'], ['1', '/', '2']), (['⅓'], ['1', '/', '3']), (['¼'], ['1', '/', '4']),
  (['¾'], ['3', '/', '4']), (['⅔'], ['2', '/', '3']),
  (['€'], ['E', 'U', 'R']), (['£'], ['G', 'B', 'P']), (['¥'], ['J', 'P', 'Y']),
  (['¢'], ['c']),
  (['©'], ['(', 'c', ')']), (['®'], ['(', 'R', ')']),
  (['™'], ['(', 'T', 'M', ')']),
  (['·'], ['-']), (['†'], ['+']), (['‡'], ['+', '+']), (['§'], ['S']),
  (['¶'], ['P']),
  ([Char.ofNat 0xa0], [' ']), ([Char.ofNat 0x2003], [' ']),
  ([Char.ofNat 0x2002], [' ']), ([Char.ofNat 0x2009], [' '])]

/-- The first phase of `normalize_text`: the
`for char, replacement in CHAR_SUBSTITUTIONS.items(): text = text.replace(...)`
loop. -/
def applySubs (text : List Char) : List Char :=
  CHAR_SUBSTITUTIONS.foldl (fun t p => pyReplace t p.1 p.2) text

/-- `normalize_text` from `src/markdown_printer.py`: apply the substitution
table, then keep code points below 128, keep code points in [128, 256), and
replace anything else with `'?'`. -/
def normalize_text (text : List Char) : List Char :=
  (applySubs text).map (fun ch =>
    if ch.toNat < 128 then ch
    else if ch.toNat < 256 then ch
    else '?')

/-- An input on which normalization is not idempotent: two double-prime
characters (U+2033) around an apostrophe, arranged so that the `″ → "`
substitution turns the text into exactly the eleven-character artifact key
of the corrupted quotes section. -/
def primeInput : List Char :=
  [':', ' ', '″', '\'', '″', ',', '\n', ' ', ' ', ' ', ' ']

/-- C7: the text normalizer is NOT idempotent.  One pass over `primeInput`
replaces the two `″` (U+2033) with `"`, yielding exactly the
eleven-character artifact key `: "'",` + newline + four spaces; a second
pass matches that key and collapses the whole text to a single apostrophe,
so `normalize(normalize(s)) ≠ normalize(s)`.  The second half of the claim
does hold: after the substitution table, the final pass maps every code
point ≥ 256 to `'?'` and passes every code point below 256 (in particular
[128, 256)) through unchanged. -/
theorem c7_normalize_code_bug :
    normalize_text primeInput =
      [':', ' ', '"', '\'', '"', ',', '\n', ' ', ' ', ' ', ' '] ∧
    normalize_text (normalize_text primeInput) = ['\''] ∧
    normalize_text (normalize_text primeInput) ≠ normalize_text primeInput ∧
    ∀ s : List Char, normalize_text s = (applySubs s).map
      (fun ch => if 256 ≤ ch.toNat then '?' else ch) := by
  refine ⟨by decide, by decide, by decide, ?_⟩
  intro s
  unfold normalize_text
  apply List.map_congr_left
  intro ch _
  by_cases h1 : ch.toNat < 128
  · rw [if_pos h1, if_neg (by omega)]
  · by_cases h2 : ch.toNat < 256
    · rw [if_neg h1, if_pos h2, if_neg (by omega)]
    · rw [if_neg h1, if_neg h2, if_pos (by omega)]

/-! ## Markdown-to-printer length accounting
(src/markdown_printer.py, `MarkdownToPrinter`) -/

/-- A print command tuple: `('raw', bytes)` or `('text', str)`. -/
inductive Command where
  | raw (b : List Nat)
  | text (s : List Char)
deriving DecidableEq

def FONT_A_HEIGHT : Nat := 24
def FONT_B_HEIGHT : Nat := 17
def DEFAULT_LINE_SPACING : Nat := 30
def DPI : Nat := 203

def CMD_FONT_A : List Nat := [0x1B, 0x4D, 0x00]
def CMD_FONT_B : List Nat := [0x1B, 0x4D, 0x01]
def CMD_BOLD_ON : List Nat := [0x1B, 0x45, 0x01]
def CMD_BOLD_OFF : List Nat := [0x1B, 0x45, 0x00]
def CMD_DOUBLE_HEIGHT : List Nat := [0x1B, 0x21, 0x10]
def CMD_DOUBLE_WH : List Nat := [0x1B, 0x21, 0x30]
def CMD_NORMAL : List Nat := [0x1B, 0x21, 0x00]

/-- The `FontSize` presets `'small'`, `'medium'`, `'large'`. -/
inductive FontSize where
  | small | medium | large
deriving DecidableEq

/-- `get_font_settings`: (style command, height multiplier, chars per line). -/
def get_font_settings : FontSize → List Nat × Nat × Nat
  | FontSize.large => (CMD_DOUBLE_WH, 2, 24)
  | FontSize.medium => (CMD_DOUBLE_HEIGHT, 2, 48)
  | FontSize.small => (CMD_NORMAL, 1, 48)

/-- The `MarkdownToPrinter` object state: font settings fixed at
construction, plus the growing command list and the running dot total
(`total_dots`, a Python int, modelled as `Int`). -/
structure MarkdownToPrinter where
  font_size : FontSize
  base_cmd : List Nat
  height_mult : Nat
  chars_per_line : Nat
  commands : List Command
  total_dots : Int

/-- `MarkdownToPrinter.__init__`. -/
def mkPrinter (fs : FontSize) : MarkdownToPrinter :=
  ⟨fs, (get_font_settings fs).1, (get_font_settings fs).2.1,
    (get_font_settings fs).2.2, [], 0⟩

/-- `add_line`: `self.total_dots += height_dots`. -/
def MarkdownToPrinter.add_line (p : MarkdownToPrinter) (h : Int) :
    MarkdownToPrinter :=
  { p with total_dots := p.total_dots + h }

/-- The body of the per-line loops: append `('text', line + '\n')`, then
`add_line(height_dots)`. -/
def emitLine (p : MarkdownToPrinter) (line : List Char) (h : Int) :
    MarkdownToPrinter :=
  ({ p with commands :=
      p.commands ++ [Command.text (line ++ ['\n'])] }).add_line h

/-- `process_paragraph`: wrap at `self.chars_per_line`; each line adds
`FONT_A_HEIGHT * self.height_mult + DEFAULT_LINE_SPACING` dots. -/
def process_paragraph (p : MarkdownToPrinter) (text : List Char) :
    Except String MarkdownToPrinter :=
  match word_wrap text p.chars_per_line with
  | Except.error e => Except.error e
  | Except.ok ls => Except.ok (ls.foldl
      (fun q line => emitLine q line
        ((FONT_A_HEIGHT * q.height_mult + DEFAULT_LINE_SPACING : Nat) : Int)) p)

/-- `process_code`: switch to Font B, wrap at 64; each line adds
`FONT_B_HEIGHT + DEFAULT_LINE_SPACING` dots; switch back to Font A. -/
def process_code (p : MarkdownToPrinter) (text : List Char) :
    Except String MarkdownToPrinter :=
  let p1 := { p with commands := p.commands ++ [Command.raw CMD_FONT_B] }
  match word_wrap text 64 with
  | Except.error e => Except.error e
  | Except.ok ls =>
      let p2 := ls.foldl
        (fun q line => emitLine q line
          ((FONT_B_HEIGHT + DEFAULT_LINE_SPACING : Nat) : Int)) p1
      Except.ok { p2 with commands := p2.commands ++ [Command.raw CMD_FONT_A] }

/-- The shared body of the `level == 1` and `level == 2` branches of
`process_heading`: style command, wrap at `chars`, each line adds
`hght + DEFAULT_LINE_SPACING` dots, then restore `self.base_cmd`. -/
def headingEmit (p : MarkdownToPrinter) (text : List Char) (cmd : List Nat)
    (chars : Nat) (hght : Nat) : Except String MarkdownToPrinter :=
  let p1 := { p with commands := p.commands ++ [Command.raw cmd] }
  match word_wrap text chars with
  | Except.error e => Except.error e
  | Except.ok ls =>
      let p2 := ls.foldl
        (fun q line => emitLine q line
          ((hght + DEFAULT_LINE_SPACING : Nat) : Int)) p1
      Except.ok { p2 with commands := p2.commands ++ [Command.raw p2.base_cmd] }

/-- `process_heading`: H1 double width+height at 24 chars, H2 double height
at 48 chars, H3+ bold at the active font's budget. -/
def process_heading (p : MarkdownToPrinter) (text : List Char) (level : Nat) :
    Except String MarkdownToPrinter :=
  if level = 1 then headingEmit p text CMD_DOUBLE_WH 24 (FONT_A_HEIGHT * 2)
  else if level = 2 then headingEmit p text CMD_DOUBLE_HEIGHT 48 (FONT_A_HEIGHT * 2)
  else
    let p1 := { p with commands := p.commands ++ [Command.raw CMD_BOLD_ON] }
    match word_wrap text p.chars_per_line with
    | Except.error e => Except.error e
    | Except.ok ls =>
        let p2 := ls.foldl
          (fun q line => emitLine q line
            ((FONT_A_HEIGHT * q.height_mult + DEFAULT_LINE_SPACING : Nat) : Int)) p1
        Except.ok { p2 with commands := p2.commands ++ [Command.raw CMD_BOLD_OFF] }

/-- `process_hr`: a dash-filled text line with the paragraph line height. -/
def process_hr (p : MarkdownToPrinter) : MarkdownToPrinter :=
  ({ p with commands := p.commands ++
      [Command.text (List.replicate p.chars_per_line '-' ++ ['\n'])] }).add_line
    ((FONT_A_HEIGHT * p.height_mult + DEFAULT_LINE_SPACING : Nat) : Int)

/-- `process_newline`: a bare newline adding only the fixed line spacing. -/
def process_newline (p : MarkdownToPrinter) : MarkdownToPrinter :=
  ({ p with commands := p.commands ++ [Command.text ['\n']] }).add_line
    ((DEFAULT_LINE_SPACING : Nat) : Int)

/-- `process_bold`: style toggles and inline text, no length contribution. -/
def process_bold (p : MarkdownToPrinter) (text : List Char) : MarkdownToPrinter :=
  { p with commands := p.commands ++
      [Command.raw CMD_BOLD_ON, Command.text text, Command.raw CMD_BOLD_OFF] }

/-- `get_length_inches`: `total_dots / DPI`. -/
def get_length_inches (p : MarkdownToPrinter) : ℚ :=
  (p.total_dots : ℚ) / (DPI : ℚ)

lemma foldl_emit_total (g : MarkdownToPrinter → Nat)
    (hg : ∀ (q : MarkdownToPrinter) (c : List Command) (t : Int),
      g { q with commands := c, total_dots := t } = g q) :
    ∀ (ls : List (List Char)) (p : MarkdownToPrinter),
      (ls.foldl (fun q line => emitLine q line ((g q : Nat) : Int)) p).total_dots
        = p.total_dots + (ls.length : Int) * ((g p : Nat) : Int) := by
  intro ls
  induction ls with
  | nil =>
      intro p
      simp
  | cons l ls ih =>
      intro p
      rw [List.foldl_cons]
      have hemit : emitLine p l ((g p : Nat) : Int) =
          { p with commands := p.commands ++ [Command.text (l ++ ['\n'])],
                   total_dots := p.total_dots + ((g p : Nat) : Int) } := rfl
      rw [hemit, ih]
      rw [hg p (p.commands ++ [Command.text (l ++ ['\n'])])
        (p.total_dots + ((g p : Nat) : Int))]
      simp only [List.length_cons]
      push_cast
      ring

/-- C4 counterexample: a one-line code unit.  `word_wrap("x", 64)` yields the
single line `"x"`, and `process_code` on a fresh Small-font printer adds
`FONT_B_HEIGHT + DEFAULT_LINE_SPACING = 17 + 30 = 47` dots — not
`line_height_dots(style) + 30 = 24 * 1 + 30 = 54` as the claim requires for
lines inside code units. -/
theorem c4_counterexample :
    word_wrap ['x'] 64 = Except.ok [['x']] ∧
    (process_code (mkPrinter FontSize.small) ['x']).map
      MarkdownToPrinter.total_dots = Except.ok 47 ∧
    (47 : Int) ≠
      ((FONT_A_HEIGHT * (mkPrinter FontSize.small).height_mult +
        DEFAULT_LINE_SPACING : Nat) : Int) := by
  refine ⟨rfl, rfl, by decide⟩

/-- C4 (amended): each text line emitted by `process_paragraph`, by a level-3
(or deeper) heading, or by `process_hr` adds exactly
`FONT_A_HEIGHT * height_mult + 30` dots; each H1 or H2 heading line adds
`FONT_A_HEIGHT * 2 + 30` dots; but each line emitted inside a code unit adds
`FONT_B_HEIGHT + 30 = 47` dots (Font B's 17-dot glyph height, with no
height-multiplier scaling), not `24 * height_mult + 30`. -/
theorem c4_line_height_accounting (p : MarkdownToPrinter) (text : List Char) :
    (∀ ls, word_wrap text p.chars_per_line = Except.ok ls →
      ∃ q, process_paragraph p text = Except.ok q ∧
        q.total_dots = p.total_dots + (ls.length : Int) *
          ((FONT_A_HEIGHT * p.height_mult + DEFAULT_LINE_SPACING : Nat) : Int)) ∧
    (∀ ls, word_wrap text 64 = Except.ok ls →
      ∃ q, process_code p text = Except.ok q ∧
        q.total_dots = p.total_dots + (ls.length : Int) *
          ((FONT_B_HEIGHT + DEFAULT_LINE_SPACING : Nat) : Int)) ∧
    (∀ ls, word_wrap text 24 = Except.ok ls →
      ∃ q, process_heading p text 1 = Except.ok q ∧
        q.total_dots = p.total_dots + (ls.length : Int) *
          ((FONT_A_HEIGHT * 2 + DEFAULT_LINE_SPACING : Nat) : Int)) ∧
    (∀ ls, word_wrap text 48 = Except.ok ls →
      ∃ q, process_heading p text 2 = Except.ok q ∧
        q.total_dots = p.total_dots + (ls.length : Int) *
          ((FONT_A_HEIGHT * 2 + DEFAULT_LINE_SPACING : Nat) : Int)) ∧
    (∀ level, 3 ≤ level →
      ∀ ls, word_wrap text p.chars_per_line = Except.ok ls →
      ∃ q, process_heading p text level = Except.ok q ∧
        q.total_dots = p.total_dots + (ls.length : Int) *
          ((FONT_A_HEIGHT * p.height_mult + DEFAULT_LINE_SPACING : Nat) : Int)) ∧
    (process_hr p).total_dots = p.total_dots +
      ((FONT_A_HEIGHT * p.height_mult + DEFAULT_LINE_SPACING : Nat) : Int) := by
  have hgA : ∀ (q : MarkdownToPrinter) (c : List Command) (t : Int),
      (fun r : MarkdownToPrinter =>
        FONT_A_HEIGHT * r.height_mult + DEFAULT_LINE_SPACING)
        { q with commands := c, total_dots := t } =
      (fun r : MarkdownToPrinter =>
        FONT_A_HEIGHT * r.height_mult + DEFAULT_LINE_SPACING) q :=
    fun q c t => rfl
  refine ⟨?_, ?_, ?_, ?_, ?_, ?_⟩
  · intro ls h
    unfold process_paragraph
    rw [h]
    exact ⟨_, rfl,
      foldl_emit_total
        (fun r => FONT_A_HEIGHT * r.height_mult + DEFAULT_LINE_SPACING) hgA ls p⟩
  · intro ls h
    unfold process_code
    rw [h]
    refine ⟨_, rfl, ?_⟩
    show (ls.foldl (fun q line => emitLine q line
        ((FONT_B_HEIGHT + DEFAULT_LINE_SPACING : Nat) : Int))
        { p with commands := p.commands ++ [Command.raw CMD_FONT_B] }).total_dots
      = _
    rw [foldl_emit_total (fun _ => FONT_B_HEIGHT + DEFAULT_LINE_SPACING)
      (fun q c t => rfl) ls]
  · intro ls h
    unfold process_heading headingEmit
    rw [if_pos rfl, h]
    refine ⟨_, rfl, ?_⟩
    show (ls.foldl (fun q line => emitLine q line
        ((FONT_A_HEIGHT * 2 + DEFAULT_LINE_SPACING : Nat) : Int))
        { p with commands := p.commands ++ [Command.raw CMD_DOUBLE_WH] }).total_dots
      = _
    rw [foldl_emit_total (fun _ => FONT_A_HEIGHT * 2 + DEFAULT_LINE_SPACING)
      (fun q c t => rfl) ls]
  · intro ls h
    unfold process_heading headingEmit
    rw [if_neg (by omega), if_pos rfl, h]
    refine ⟨_, rfl, ?_⟩
    show (ls.foldl (fun q line => emitLine q line
        ((FONT_A_HEIGHT * 2 + DEFAULT_LINE_SPACING : Nat) : Int))
        { p with commands := p.commands ++ [Command.raw CMD_DOUBLE_HEIGHT] }).total_dots
      = _
    rw [foldl_emit_total (fun _ => FONT_A_HEIGHT * 2 + DEFAULT_LINE_SPACING)
      (fun q c t => rfl) ls]
  · intro level hlevel ls h
    unfold process_heading
    rw [if_neg (by omega), if_neg (by omega), h]
    refine ⟨_, rfl, ?_⟩
    show (ls.foldl (fun q line => emitLine q line
        ((FONT_A_HEIGHT * q.height_mult + DEFAULT_LINE_SPACING : Nat) : Int))
        { p with commands := p.commands ++ [Command.raw CMD_BOLD_ON] }).total_dots
      = _
    rw [foldl_emit_total
      (fun r => FONT_A_HEIGHT * r.height_mult + DEFAULT_LINE_SPACING) hgA ls]
  · rfl

/-- C4 witness: the amended accounting theorem instantiated on a fresh
Small-font printer with paragraph text `"hi"` (one wrapped line). -/
theorem c4_line_height_accounting_witness :
    ∃ q, process_paragraph (mkPrinter FontSize.small) ['h', 'i'] = Except.ok q ∧
      q.total_dots = (mkPrinter FontSize.small).total_dots +
        (([['h', 'i']] : List (List Char)).length : Int) *
          ((FONT_A_HEIGHT * (mkPrinter FontSize.small).height_mult +
            DEFAULT_LINE_SPACING : Nat) : Int) :=
  (c4_line_height_accounting (mkPrinter FontSize.small) ['h', 'i']).1
    [['h', 'i']] (by rfl)

/-! ## Image processor geometry (src/image_processor.py, `process_image`)

The pipeline is modelled at the level of the image geometry: the mode
conversions (RGBA/LA flattening, RGB, grayscale, 1-bit dithering) never
change dimensions and are not tracked; rotation, center-crop and resize act
on the `(width, height)` pair.  The Python float ratio
`target_width / image.width` followed by `int(image.height * ratio)` is
modelled as exact rational arithmetic with truncation, i.e. `Nat` floor
division. -/

/-- The `RotationMode` enum: `auto`, `original`, `square`. -/
inductive RotationMode where
  | auto | original | square
deriving DecidableEq

/-- Image dimensions (width, height) in pixels. -/
structure ImageDims where
  width : Nat
  height : Nat
deriving DecidableEq

/-- PIL's `image.rotate(90, expand=True)`: dimensions swap. -/
def rotate90_expand (d : ImageDims) : ImageDims := ⟨d.height, d.width⟩

/-- `center_crop_square`: identity on squares, else crop to the smaller
dimension. -/
def center_crop_square (d : ImageDims) : ImageDims :=
  if d.width = d.height then d
  else ⟨min d.width d.height, min d.width d.height⟩

/-- `process_image`: apply the rotation mode (`Auto` rotates 90° when
width > height), then resize to `target` width preserving aspect ratio
(skipped when the width already matches; `target / 0` raises
`ZeroDivisionError`), and return the dimensions with the print length
`height / DPI` in inches. -/
def process_image (d : ImageDims) (rot : RotationMode) (target : Nat) :
    Except String (ImageDims × ℚ) :=
  let d1 := match rot with
    | RotationMode.square => center_crop_square d
    | RotationMode.auto => if d.height < d.width then rotate90_expand d else d
    | RotationMode.original => d
  if d1.width = target then Except.ok (d1, (d1.height : ℚ) / (DPI : ℚ))
  else if d1.width = 0 then Except.error "ZeroDivisionError: division by zero"
  else Except.ok (⟨target, d1.height * target / d1.width⟩,
    ((d1.height * target / d1.width : Nat) : ℚ) / (DPI : ℚ))

/-- C5 counterexample: a degenerate 1×0 source (PIL allows zero-sized
images) has width exceeding height, but `Auto` rotation produces a 0-wide
image and the resize ratio `576 / 0` raises `ZeroDivisionError`, so no
bitmap of width 576 is returned. -/
theorem c5_counterexample :
    (0 : Nat) < 1 ∧
    process_image ⟨1, 0⟩ RotationMode.auto 576 =
      Except.error "ZeroDivisionError: division by zero" :=
  ⟨by decide, rfl⟩

/-- C5 (amended): for every source whose width exceeds its height and whose
height is at least 1, `Auto` rotates 90° before scaling and the result has
width exactly `target` and height `width * target / height` (proportional
scaling with truncation); in particular a 1200×800 source at target 576
becomes 576×864. -/
theorem c5_auto_rotation (w h target : Nat) (hwh : h < w) (hpos : 1 ≤ h) :
    process_image ⟨w, h⟩ RotationMode.auto target =
      Except.ok (⟨target, w * target / h⟩,
        ((w * target / h : Nat) : ℚ) / (DPI : ℚ)) ∧
    process_image ⟨1200, 800⟩ RotationMode.auto 576 =
      Except.ok (⟨576, 864⟩, ((864 : Nat) : ℚ) / (DPI : ℚ)) := by
  constructor
  · unfold process_image
    rw [show (if (⟨w, h⟩ : ImageDims).height < (⟨w, h⟩ : ImageDims).width
        then rotate90_expand ⟨w, h⟩ else ⟨w, h⟩) = (⟨h, w⟩ : ImageDims)
      from by rw [if_pos hwh]; rfl]
    by_cases htar : h = target
    · rw [if_pos htar]
      subst htar
      rw [Nat.mul_div_cancel w hpos]
    · rw [if_neg htar, if_neg (show (⟨h, w⟩ : ImageDims).width ≠ 0 from by
        show h ≠ 0
        omega)]
  · rfl

/-- C5 witness: the amended rotation-and-scaling theorem instantiated on the
1200×800 source with target width 576. -/
theorem c5_auto_rotation_witness :
    process_image ⟨1200, 800⟩ RotationMode.auto 576 =
      Except.ok (⟨576, 1200 * 576 / 800⟩,
        ((1200 * 576 / 800 : Nat) : ℚ) / (DPI : ℚ)) ∧
    process_image ⟨1200, 800⟩ RotationMode.auto 576 =
      Except.ok (⟨576, 864⟩, ((864 : Nat) : ℚ) / (DPI : ℚ)) :=
  c5_auto_rotation 1200 800 576 (by decide) (by decide)

lemma process_paragraph_mono (p q : MarkdownToPrinter) (text : List Char)
    (h : process_paragraph p text = Except.ok q) :
    p.total_dots ≤ q.total_dots := by
  unfold process_paragraph at h
  cases hww : word_wrap text p.chars_per_line with
  | error e =>
      rw [hww] at h
      exact Except.noConfusion h
  | ok ls =>
      rw [hww] at h
      injection h with h'
      subst h'
      rw [foldl_emit_total
        (fun r => FONT_A_HEIGHT * r.height_mult + DEFAULT_LINE_SPACING)
        (fun q c t => rfl) ls p]
      exact le_add_of_nonneg_right
        (mul_nonneg (Int.natCast_nonneg _) (Int.natCast_nonneg _))

lemma process_code_mono (p q : MarkdownToPrinter) (text : List Char)
    (h : process_code p text = Except.ok q) :
    p.total_dots ≤ q.total_dots := by
  unfold process_code at h
  cases hww : word_wrap text 64 with
  | error e =>
      rw [hww] at h
      exact Except.noConfusion h
  | ok ls =>
      rw [hww] at h
      injection h with h'
      subst h'
      show p.total_dots ≤ (ls.foldl (fun r line => emitLine r line
        ((FONT_B_HEIGHT + DEFAULT_LINE_SPACING : Nat) : Int))
        { p with commands := p.commands ++ [Command.raw CMD_FONT_B] }).total_dots
      rw [foldl_emit_total (fun _ => FONT_B_HEIGHT + DEFAULT_LINE_SPACING)
        (fun q c t => rfl) ls]
      exact le_add_of_nonneg_right
        (mul_nonneg (Int.natCast_nonneg _) (Int.natCast_nonneg _))

lemma headingEmit_mono (p q : MarkdownToPrinter) (text : List Char)
    (cmd : List Nat) (chars hght : Nat)
    (h : headingEmit p text cmd chars hght = Except.ok q) :
    p.total_dots ≤ q.total_dots := by
  unfold headingEmit at h
  cases hww : word_wrap text chars with
  | error e =>
      rw [hww] at h
      exact Except.noConfusion h
  | ok ls =>
      rw [hww] at h
      injection h with h'
      subst h'
      show p.total_dots ≤ (ls.foldl (fun r line => emitLine r line
        ((hght + DEFAULT_LINE_SPACING : Nat) : Int))
        { p with commands := p.commands ++ [Command.raw cmd] }).total_dots
      rw [foldl_emit_total (fun _ => hght + DEFAULT_LINE_SPACING)
        (fun q c t => rfl) ls]
      exact le_add_of_nonneg_right
        (mul_nonneg (Int.natCast_nonneg _) (Int.natCast_nonneg _))

lemma process_heading_mono (p q : MarkdownToPrinter) (text : List Char)
    (level : Nat) (h : process_heading p text level = Except.ok q) :
    p.total_dots ≤ q.total_dots := by
  unfold process_heading at h
  by_cases h1 : level = 1
  · rw [if_pos h1] at h
    exact headingEmit_mono p q text CMD_DOUBLE_WH 24 (FONT_A_HEIGHT * 2) h
  · rw [if_neg h1] at h
    by_cases h2 : level = 2
    · rw [if_pos h2] at h
      exact headingEmit_mono p q text CMD_DOUBLE_HEIGHT 48 (FONT_A_HEIGHT * 2) h
    · rw [if_neg h2] at h
      cases hww : word_wrap text p.chars_per_line with
      | error e =>
          rw [hww] at h
          exact Except.noConfusion h
      | ok ls =>
          rw [hww] at h
          injection h with h'
          subst h'
          show p.total_dots ≤ (ls.foldl (fun r line => emitLine r line
            ((FONT_A_HEIGHT * r.height_mult + DEFAULT_LINE_SPACING : Nat) : Int))
            { p with commands := p.commands ++ [Command.raw CMD_BOLD_ON] }).total_dots
          rw [foldl_emit_total
            (fun r => FONT_A_HEIGHT * r.height_mult + DEFAULT_LINE_SPACING)
            (fun q c t => rfl) ls]
          exact le_add_of_nonneg_right
            (mul_nonneg (Int.natCast_nonneg _) (Int.natCast_nonneg _))

/-- One construction step of the parser: any of the `process_*` methods
applied to the current printer state (successfully, for the fallible ones). -/
inductive PStep : MarkdownToPrinter → MarkdownToPrinter → Prop where
  | paragraph {p q : MarkdownToPrinter} (text : List Char) :
      process_paragraph p text = Except.ok q → PStep p q
  | code {p q : MarkdownToPrinter} (text : List Char) :
      process_code p text = Except.ok q → PStep p q
  | heading {p q : MarkdownToPrinter} (text : List Char) (level : Nat) :
      process_heading p text level = Except.ok q → PStep p q
  | hr (p : MarkdownToPrinter) : PStep p (process_hr p)
  | newline (p : MarkdownToPrinter) : PStep p (process_newline p)
  | bold (p : MarkdownToPrinter) (text : List Char) : PStep p (process_bold p text)

lemma pstep_mono (p q : MarkdownToPrinter) (h : PStep p q) :
    p.total_dots ≤ q.total_dots := by
  cases h with
  | paragraph text h => exact process_paragraph_mono p q text h
  | code text h => exact process_code_mono p q text h
  | heading text level h => exact process_heading_mono p q text level h
  | hr =>
      exact le_add_of_nonneg_right (Int.natCast_nonneg _)
  | newline =>
      exact le_add_of_nonneg_right (Int.natCast_nonneg _)
  | bold text => exact le_refl _

/-- C9: one parser construction step never decreases `total_dots` (hence
never decreases the length in inches); every state reachable from a fresh
printer has non-negative accumulated length; and the print length returned
by the image processor is non-negative. -/
theorem c9_print_length_invariant :
    (∀ p q : MarkdownToPrinter, PStep p q →
      p.total_dots ≤ q.total_dots ∧
      get_length_inches p ≤ get_length_inches q) ∧
    (∀ (fs : FontSize) (p : MarkdownToPrinter),
      Relation.ReflTransGen PStep (mkPrinter fs) p →
      0 ≤ p.total_dots ∧ 0 ≤ get_length_inches p) ∧
    (∀ (d : ImageDims) (rot : RotationMode) (target : Nat) (r : ImageDims × ℚ),
      process_image d rot target = Except.ok r → 0 ≤ r.2) := by
  have hlen : ∀ a b : Int, a ≤ b → (a : ℚ) / (DPI : ℚ) ≤ (b : ℚ) / (DPI : ℚ) := by
    intro a b hab
    apply div_le_div_of_nonneg_right (Int.cast_le.mpr hab)
    norm_num [DPI]
  refine ⟨fun p q h => ⟨pstep_mono p q h, hlen _ _ (pstep_mono p q h)⟩, ?_, ?_⟩
  · intro fs p h
    have htot : 0 ≤ p.total_dots := by
      induction h with
      | refl => exact le_refl 0
      | tail hab hstep ih => exact le_trans ih (pstep_mono _ _ hstep)
    refine ⟨htot, ?_⟩
    show (0 : ℚ) ≤ (p.total_dots : ℚ) / (DPI : ℚ)
    apply div_nonneg
    · exact_mod_cast htot
    · norm_num [DPI]
  · have aux : ∀ (d1 : ImageDims) (target : Nat) (r : ImageDims × ℚ),
        (if d1.width = target then Except.ok (d1, (d1.height : ℚ) / (DPI : ℚ))
          else if d1.width = 0 then
            Except.error "ZeroDivisionError: division by zero"
          else Except.ok (⟨target, d1.height * target / d1.width⟩,
            ((d1.height * target / d1.width : Nat) : ℚ) / (DPI : ℚ)))
          = Except.ok r → 0 ≤ r.2 := by
      intro d1 target r h
      split_ifs at h with h1 h2
      all_goals first
        | (injection h with h'
           subst h'
           exact div_nonneg (Nat.cast_nonneg _) (by norm_num [DPI]))
        | exact Except.noConfusion h
    intro d rot target r h
    cases rot with
    | auto =>
        exact aux (if d.height < d.width then rotate90_expand d else d) target r h
    | original => exact aux d target r h
    | square => exact aux (center_crop_square d) target r h

/-- C9 witness: the invariant theorem instantiated at a horizontal-rule step
from a fresh Small-font printer, the trivial reachability of the fresh
printer itself, and a concrete 10×10 image processed at target width 10. -/
theorem c9_print_length_invariant_witness :
    ((mkPrinter FontSize.small).total_dots ≤
        (process_hr (mkPrinter FontSize.small)).total_dots ∧
      get_length_inches (mkPrinter FontSize.small) ≤
        get_length_inches (process_hr (mkPrinter FontSize.small))) ∧
    (0 ≤ (mkPrinter FontSize.small).total_dots ∧
      0 ≤ get_length_inches (mkPrinter FontSize.small)) ∧
    (0 : ℚ) ≤ ((⟨10, 10⟩ : ImageDims), ((10 : Nat) : ℚ) / (DPI : ℚ)).2 :=
  ⟨c9_print_length_invariant.1 _ _ (PStep.hr (mkPrinter FontSize.small)),
    c9_print_length_invariant.2.1 FontSize.small (mkPrinter FontSize.small)
      Relation.ReflTransGen.refl,
    c9_print_length_invariant.2.2 ⟨10, 10⟩ RotationMode.original 10
      (⟨10, 10⟩, ((10 : Nat) : ℚ) / (DPI : ℚ)) rfl⟩
